import Mathlib

/-!
# BitNet STFMA kernels, weight cache and dispatcher: a shallow embedding

This file embeds the C sources of the BitNet sparse-ternary-FMA core
(`ggml-bitnet-stfma-avx512.cpp`, `ggml-bitnet-stfma-cache.c`,
`ggml-bitnet-stfma-inference.cpp`) as executable Lean definitions and proves
the specification's testable properties about them.

Modelling conventions:
* a `uint8_t` buffer is a total function `Nat → Nat`; every read applies
  `% 256` (the width of the machine byte);
* `int32_t` activations and accumulators are modelled as `Int`.  Both the
  vectorized kernel and the scalar reference accumulate the same multiset of
  products, so equalities proved over `Int` transport along the ring
  homomorphism to `ZMod (2^32)` and hence hold for the wrapped `int32_t`
  results as well;
* a SIMD vector of 16 `int32` lanes is a function from the lane index
  (0..15) to `Int`; the per-lane accumulate followed by the tree reduction
  of `horizontal_sum_avx512` is modelled as the sum over lanes 0..15, which
  equals the tree reduction by associativity and commutativity of addition;
* the global cache is explicit state (`CacheState`) threaded through the
  operations; `malloc`/`free` are modelled by a fresh-address counter plus a
  list of live allocations, with Boolean oracles deciding whether each
  `malloc` succeeds; a C pointer handle is the entry's address (`Nat`),
  `NULL` is `Option.none`.
-/

/-! ## AVX-512 dense kernel (`ggml-bitnet-stfma-avx512.cpp`) -/

/-- The 4-byte little-endian load `*(const uint32_t*)&weights[b]` performed
once per 16-element chunk: bytes `b, b+1, b+2, b+3` assembled into a 32-bit
word holding 16 two-bit fields. -/
def loadWord (weights : Nat → Nat) (b : Nat) : Nat :=
  (weights b % 256) + 256 * (weights (b + 1) % 256) + 65536 * (weights (b + 2) % 256)
    + 16777216 * (weights (b + 3) % 256)

/-- `unpack_trits_avx512` (avx512.cpp lines 25-43): lane `lane` of the result
is `(packed >> (2*lane)) & 0x3`, the per-lane variable right shift
`_mm512_srlv_epi32` by `0,2,4,...,30` followed by the 2-bit mask. -/
def unpack_trits_avx512 (packed : Nat) (lane : Nat) : Nat :=
  (packed >>> (2 * lane)) &&& 3

/-- `decode_trits_avx512` (avx512.cpp lines 50-56): subtract 1 in every lane,
mapping the 2-bit field `0→-1, 1→0, 2→+1`. -/
def decode_trits_avx512 (encoded : Nat → Nat) (lane : Nat) : Int :=
  (encoded lane : Int) - 1

/-- `horizontal_sum_avx512` (avx512.cpp lines 62-82): the pairwise tree
reduction of the 16 `int32` lanes, modelled as the full lane sum (equal to
the tree reduction since addition is associative and commutative). -/
def horizontal_sum_avx512 (v : Nat → Int) : Int :=
  ∑ lane ∈ Finset.range 16, v lane

/-- The per-lane products of one 16-element chunk starting at element `i`
(loop body of `ggml_bitnet_stfma_dense_avx512`, lines 100-116): load the word
at byte `i/4`, unpack, decode, and multiply with `activations[i + lane]`. -/
def chunk_products (weights : Nat → Nat) (activations : Nat → Int) (i lane : Nat) : Int :=
  decode_trits_avx512 (unpack_trits_avx512 (loadWord weights (i / 4))) lane
    * activations (i + lane)

/-- The per-lane accumulator after `k` iterations of the 16-element chunk
loop (`accumulator` in the C sources): iteration `c` processes the chunk
starting at element `16*c`. -/
def dense_acc (weights : Nat → Nat) (activations : Nat → Int) : Nat → Nat → Int
  | 0 => fun _ => 0
  | k + 1 => fun lane =>
      dense_acc weights activations k lane + chunk_products weights activations (16 * k) lane

/-- `ggml_bitnet_stfma_dense_avx512` (avx512.cpp lines 92-120): the loop
`for (i = 0; i < n; i += 16)` runs `⌈n/16⌉` iterations, then the accumulator
is horizontally summed. -/
def ggml_bitnet_stfma_dense_avx512 (weights : Nat → Nat) (activations : Nat → Int)
    (n : Nat) : Int :=
  horizontal_sum_avx512 (dense_acc weights activations ((n + 15) / 16))

/-- The per-lane products of the masked tail chunk (avx512.cpp lines
146-160): the mask `(1 << remaining) - 1` activates lanes `0..r-1`;
`_mm512_maskz_loadu_epi32` and `_mm512_maskz_mullo_epi32` zero the product in
every masked-off lane. -/
def tail_products (weights : Nat → Nat) (activations : Nat → Int) (i r lane : Nat) : Int :=
  if lane < r then
    decode_trits_avx512 (unpack_trits_avx512 (loadWord weights (i / 4))) lane
      * activations (i + lane)
  else 0

/-- `ggml_bitnet_stfma_dense_avx512_tail` (avx512.cpp lines 128-163): the
full-chunk loop `for (; i + 16 <= n; i += 16)` runs `n / 16` iterations; if
`i < n` afterwards (i.e. `n % 16 ≠ 0`) the remaining `r = n % 16` elements
are processed with a masked chunk; finally the accumulator is horizontally
summed. -/
def ggml_bitnet_stfma_dense_avx512_tail (weights : Nat → Nat) (activations : Nat → Int)
    (n : Nat) : Int :=
  let full := n / 16
  let acc := dense_acc weights activations full
  let r := n % 16
  horizontal_sum_avx512
    (if r = 0 then acc
     else fun lane => acc lane + tail_products weights activations (16 * full) r lane)

/-! ### Scalar reference (`ggml-bitnet-stfma-inference.cpp` lines 79-87)

The non-vectorized fallback decodes element `i` from byte `i/4`, sub-field
`i%4`, subtracts 1, multiplies by the activation and accumulates. -/

/-- The 2-bit field of element `i`: `(stfma_weights[i/4] >> ((i%4)*2)) & 0x3`. -/
def refTrit (weights : Nat → Nat) (i : Nat) : Nat :=
  ((weights (i / 4) % 256) >>> (2 * (i % 4))) &&& 3

/-- The scalar reference dot product `Σ_{i<n} (field_i - 1) * activations[i]`. -/
def refDot (weights : Nat → Nat) (activations : Nat → Int) (n : Nat) : Int :=
  ∑ i ∈ Finset.range n, ((refTrit weights i : Int) - 1) * activations i

/-! ### Read footprints of the tail kernel

Derived from the structure of `ggml_bitnet_stfma_dense_avx512_tail`: each
full chunk and the masked tail chunk execute the *unmasked* 4-byte load
`*(const uint32_t*)&weights[i / 4]`, so the weight bytes touched are
`i/4 .. i/4+3`; the activation loads are `_mm512_loadu_si512` (16 elements)
for full chunks and the masked `_mm512_maskz_loadu_epi32` (first `n % 16`
lanes only) for the tail. -/

/-- Start indices `i = 0, 16, ...` of the full-chunk loop iterations. -/
def tail_full_chunk_starts (n : Nat) : List Nat :=
  (List.range (n / 16)).map (fun c => 16 * c)

/-- Byte indices of `weights` read by `ggml_bitnet_stfma_dense_avx512_tail`. -/
def tail_weight_bytes_read (n : Nat) : List Nat :=
  (tail_full_chunk_starts n ++ if n % 16 = 0 then [] else [16 * (n / 16)]).flatMap
    (fun i => [i / 4, i / 4 + 1, i / 4 + 2, i / 4 + 3])

/-- Element indices of `activations` read by
`ggml_bitnet_stfma_dense_avx512_tail`. -/
def tail_act_indices_read (n : Nat) : List Nat :=
  (tail_full_chunk_starts n).flatMap (fun i => (List.range 16).map (fun lane => i + lane))
    ++ if n % 16 = 0 then [] else (List.range (n % 16)).map (fun lane => 16 * (n / 16) + lane)

/-! ## Encoder (`ggml-bitnet-stfma-cache.c` lines 7-16) -/

/-- `convert_bitnet_to_stfma_byte` (cache.c lines 7-16), step for step:
`low_bits = b & 0x55`; `high_bits = b & 0xAA`; `out_low = high_bits >> 1`;
`high_bits_shifted = high_bits >> 1`; `xor_result = high_bits_shifted ^
low_bits`; `out_high = (~xor_result) & 0x55` (C's `~` on the promoted value
followed by `& 0x55` equals XOR with 0xFF followed by the same mask);
`out_high = out_high << 1`; return `out_high | out_low`. -/
def convert_bitnet_to_stfma_byte (b : Nat) : Nat :=
  let low_bits := b &&& 0x55
  let high_bits := b &&& 0xAA
  let out_low := high_bits >>> 1
  let high_bits_shifted := high_bits >>> 1
  let xor_result := high_bits_shifted ^^^ low_bits
  let out_high := (xor_result ^^^ 0xFF) &&& 0x55
  let out_high2 := out_high <<< 1
  out_high2 ||| out_low

/-- The 2-bit field of byte `b` at field index `k` (`k = 0..3`), least
significant field first. -/
def fieldAt (b k : Nat) : Nat := (b >>> (2 * k)) &&& 3

/-- Modelled from the claim's words: one 2-bit field `(hi, lo)` is
transformed to `(hi', lo')` with `lo' = hi` and `hi' = NOT (hi XOR lo)`. -/
def encode_field_spec (f : Nat) : Nat :=
  let hi := (f >>> 1) &&& 1
  let lo := f &&& 1
  2 * ((hi ^^^ lo) ^^^ 1) + hi

/-- Modelled from the claim's words: all four 2-bit fields transformed
independently, with no cross-field dependency or carry. -/
def encode_byte_fieldwise_spec (b : Nat) : Nat :=
  ∑ k ∈ Finset.range 4, encode_field_spec (fieldAt b k) <<< (2 * k)

/-- The per-field bijection realised by the encoder on trit codes:
`0 → 2, 1 → 0, 2 → 1` (and `3 → 3`). -/
def trit_perm_spec (f : Nat) : Nat :=
  match f with
  | 0 => 2
  | 1 => 0
  | 2 => 1
  | _ => 3

/-! ## Weight cache (`ggml-bitnet-stfma-cache.c`) -/

/-- `struct ggml_bitnet_stfma_cache_entry` (cache.c lines 19-23): the
converted buffer (`stfma_weights`, as its byte list) and its length
`size_bytes`.  `entryAddr` and `bufAddr` are the `malloc` addresses of the
entry struct and of the buffer; a C pointer handle is `entryAddr`. -/
structure CacheEntry where
  entryAddr : Nat
  bufAddr : Nat
  stfma_weights : List Nat
  size_bytes : Nat
deriving DecidableEq

/-- The global state `g_cache` (cache.c lines 26-30) plus an explicit
allocator model: `heap_next` is the next fresh `malloc` address and
`heap_live` the currently allocated addresses.  `head` lists the linked-list
entries front first. -/
structure CacheState where
  heap_next : Nat
  heap_live : List Nat
  head : List CacheEntry
  num_entries : Nat
  total_bytes : Nat
deriving DecidableEq

/-- The statically initialised state `{NULL, 0, 0}` with an empty heap. -/
def initState : CacheState := ⟨0, [], [], 0, 0⟩

/-- `ggml_bitnet_stfma_cache_init` (cache.c lines 32-36): resets the three
registry fields; it does not free existing entries (their allocations stay
live in the heap model, as in C). -/
def ggml_bitnet_stfma_cache_init (st : CacheState) : CacheState :=
  { st with head := [], num_entries := 0, total_bytes := 0 }

/-- `ggml_bitnet_stfma_cache_weights` (cache.c lines 38-78).  `raw = none`
models a NULL `bitnet_weights` pointer.  `entryOk` / `bufOk` are the
allocator oracle: whether the `malloc` of the entry struct (line 48) and of
the weight buffer (line 57) succeed.  On buffer-allocation failure the entry
struct is freed again (line 59).  On success the buffer holds
`convert_bitnet_to_stfma_byte(bitnet_weights[i])` for `i < (n+3)/4` (lines
67-69), the entry is pushed at the head of the list and the aggregates grow
(lines 72-75); the returned handle is the new entry's address. -/
def ggml_bitnet_stfma_cache_weights (st : CacheState) (raw : Option (Nat → Nat)) (n : Nat)
    (entryOk bufOk : Bool) : Option Nat × CacheState :=
  match raw with
  | none => (none, st)
  | some bitnet_weights =>
    if n = 0 then (none, st)
    else if entryOk = false then (none, st)
    else
      let entryAddr := st.heap_next
      let st1 : CacheState := { st with heap_next := st.heap_next + 1,
                                        heap_live := entryAddr :: st.heap_live }
      let size_bytes := (n + 3) / 4
      if bufOk = false then
        (none, { st1 with heap_live := st1.heap_live.erase entryAddr })
      else
        let bufAddr := st1.heap_next
        let st2 : CacheState := { st1 with heap_next := st1.heap_next + 1,
                                           heap_live := bufAddr :: st1.heap_live }
        let buf := (List.range size_bytes).map
          (fun i => convert_bitnet_to_stfma_byte (bitnet_weights i % 256))
        let entry : CacheEntry := ⟨entryAddr, bufAddr, buf, size_bytes⟩
        (some entryAddr,
         { st2 with head := entry :: st2.head,
                    num_entries := st2.num_entries + 1,
                    total_bytes := st2.total_bytes + size_bytes })

/-- `ggml_bitnet_stfma_get_cached_weights` (cache.c lines 80-87): a NULL
handle gives NULL; otherwise `handle->stfma_weights`.  The pointer
dereference is modelled as the registry lookup of the handle's address —
identical for live handles, and a dangling dereference has no meaning in the
model (the spec reads a null result as "handle invalid/unregistered"). -/
def ggml_bitnet_stfma_get_cached_weights (st : CacheState) (handle : Option Nat) :
    Option (List Nat) :=
  match handle with
  | none => none
  | some addr =>
    (st.head.find? (fun e => e.entryAddr == addr)).map (fun e => e.stfma_weights)

/-- The unlink scan of `ggml_bitnet_stfma_free_cached_weights` (cache.c lines
97-106): walk the list and unlink the first entry whose address equals the
handle, returning it with the remaining list. -/
def removeFirstEntry (addr : Nat) : List CacheEntry → Option CacheEntry × List CacheEntry
  | [] => (none, [])
  | e :: rest =>
    if e.entryAddr = addr then (some e, rest)
    else ((removeFirstEntry addr rest).1, e :: (removeFirstEntry addr rest).2)

/-- `ggml_bitnet_stfma_free_cached_weights` (cache.c lines 89-111): NULL is a
no-op; otherwise the entry is unlinked, the aggregates are decremented by its
size, and its buffer and struct are freed.  When the scan does not find the
handle the registry is untouched; the C code would still `free` through the
foreign pointer — undefined behaviour that the claims avoid by only freeing
live or NULL handles. -/
def ggml_bitnet_stfma_free_cached_weights (st : CacheState) (handle : Option Nat) :
    CacheState :=
  match handle with
  | none => st
  | some addr =>
    match removeFirstEntry addr st.head with
    | (some e, rest) =>
        { st with head := rest,
                  num_entries := st.num_entries - 1,
                  total_bytes := st.total_bytes - e.size_bytes,
                  heap_live := (st.heap_live.erase e.bufAddr).erase e.entryAddr }
    | (none, _) => st

/-- `ggml_bitnet_stfma_cache_shutdown` (cache.c lines 113-125): frees every
entry's buffer and struct and resets the registry to empty. -/
def ggml_bitnet_stfma_cache_shutdown (st : CacheState) : CacheState :=
  { heap_next := st.heap_next,
    heap_live := st.head.foldl (fun l e => (l.erase e.bufAddr).erase e.entryAddr) st.heap_live,
    head := [], num_entries := 0, total_bytes := 0 }

/-- `ggml_bitnet_stfma_cache_stats` (cache.c lines 127-134): reads the two
aggregates (the C function writes them through its non-null out pointers). -/
def ggml_bitnet_stfma_cache_stats (st : CacheState) : Nat × Nat :=
  (st.num_entries, st.total_bytes)

/-- One client call against the cache API.  `free k` frees the handle of the
`k`-th live entry when it exists and NULL otherwise, so a free always targets
a live handle or NULL, the only uses the claims exercise. -/
inductive CacheOp where
  | init
  | cache (raw : Option (Nat → Nat)) (n : Nat) (entryOk bufOk : Bool)
  | free (k : Nat)
  | shutdown

/-- Execute one cache API call on the state. -/
def CacheOp.step (st : CacheState) : CacheOp → CacheState
  | .init => ggml_bitnet_stfma_cache_init st
  | .cache raw n entryOk bufOk => (ggml_bitnet_stfma_cache_weights st raw n entryOk bufOk).2
  | .free k =>
    match st.head[k]? with
    | some e => ggml_bitnet_stfma_free_cached_weights st (some e.entryAddr)
    | none => ggml_bitnet_stfma_free_cached_weights st none
  | .shutdown => ggml_bitnet_stfma_cache_shutdown st

/-- Run a sequence of cache API calls from the initial state. -/
def runOps (ops : List CacheOp) : CacheState := ops.foldl CacheOp.step initState

/-- The registry accounting invariant: the two derived aggregates equal the
number of live entries and the sum of their sizes. -/
def StatsOk (st : CacheState) : Prop :=
  st.num_entries = st.head.length ∧
    st.total_bytes = (st.head.map (fun e => e.size_bytes)).sum

/-! ## Scenario states (spec §8, Scenarios A and B) -/

/-- A concrete raw weight buffer for the scenarios (all bytes zero). -/
def scenarioRaw : Nat → Nat := fun _ => 0

/-- Scenario A, first call: cache a 16-element tensor. -/
def scenarioState1 : CacheState :=
  (ggml_bitnet_stfma_cache_weights initState (some scenarioRaw) 16 true true).2

/-- Scenario A, second call: cache a 20-element tensor. -/
def scenarioState2 : CacheState :=
  (ggml_bitnet_stfma_cache_weights scenarioState1 (some scenarioRaw) 20 true true).2

/-- The handle of the middle (20-element) tensor. -/
def scenarioHandle2 : Option Nat :=
  (ggml_bitnet_stfma_cache_weights scenarioState1 (some scenarioRaw) 20 true true).1

/-- Scenario A, third call: cache a 4-element tensor. -/
def scenarioState3 : CacheState :=
  (ggml_bitnet_stfma_cache_weights scenarioState2 (some scenarioRaw) 4 true true).2

/-- Scenario B: free the middle entry of Scenario A. -/
def scenarioStateB : CacheState :=
  ggml_bitnet_stfma_free_cached_weights scenarioState3 scenarioHandle2

/-! ## Inference dispatcher (`ggml-bitnet-stfma-inference.cpp`) -/

/-- Read byte `i` of a cached buffer (the kernel's `stfma_weights[i]`);
indices past the buffer yield 0 — in C that read would already be out of
bounds (see the C2 evidence). -/
def bufByte (buf : List Nat) (i : Nat) : Nat := buf.getD i 0

/-- `ggml_vec_dot_i2_i8_s_stfma_cached` (inference.cpp lines 28-91): resolve
the handle via `get_cached_weights`; a null resolution writes `0.0` to `*s`
and returns before touching anything else (lines 36-39); otherwise the int8
activations are widened exactly to int32 (`convert_i8_to_i32_avx2` or the
scalar loop preserve every value, modelled as the identity) and the AVX-512
tail kernel produces the result, which C casts to `float` — modelled as the
exact integer it casts.  The registry state is threaded through unchanged:
the function only reads it. -/
def ggml_vec_dot_i2_i8_s_stfma_cached (st : CacheState) (n : Nat)
    (vx_handle : Option Nat) (vy : Nat → Int) : Int × CacheState :=
  match ggml_bitnet_stfma_get_cached_weights st vx_handle with
  | none => (0, st)
  | some stfma_weights =>
      (ggml_bitnet_stfma_dense_avx512_tail (bufByte stfma_weights) vy n, st)

/-- `ggml_vec_dot_i2_i8_s_stfma_hybrid` (inference.cpp lines 105-164).  The C
`source` pointer is reinterpreted as a cache handle when `use_cache` and as a
raw packed buffer otherwise; the model carries both views (`vxHandle`,
`vxRaw`).  The JIT path converts the raw bytes into the scratch encoding
buffer (`convert_bitnet_to_stfma_array` applies
`convert_bitnet_to_stfma_byte` elementwise) and runs the same tail kernel. -/
def ggml_vec_dot_i2_i8_s_stfma_hybrid (st : CacheState) (n : Nat)
    (vxHandle : Option Nat) (vxRaw : Nat → Nat) (vy : Nat → Int) (use_cache : Bool) :
    Int × CacheState :=
  if use_cache then
    ggml_vec_dot_i2_i8_s_stfma_cached st n vxHandle vy
  else
    (ggml_bitnet_stfma_dense_avx512_tail
      (fun i => convert_bitnet_to_stfma_byte (vxRaw i % 256)) vy n, st)

/-! ## Kernel correctness lemmas -/

lemma and_three_eq_mod (x : Nat) : x &&& 3 = x % 4 := by
  have h := Nat.and_pow_two_sub_one_eq_mod x 2
  norm_num at h
  exact h

/-- Unpacking lane `lane` of the 32-bit word loaded from bytes `b..b+3`
yields the 2-bit field of byte `b + lane/4` at sub-field `lane % 4`. -/
lemma unpack_loadWord (w : Nat → Nat) (b lane : Nat) (h : lane < 16) :
    unpack_trits_avx512 (loadWord w b) lane
      = ((w (b + lane / 4) % 256) >>> (2 * (lane % 4))) &&& 3 := by
  have h0 : w b % 256 < 256 := Nat.mod_lt _ (by norm_num)
  have h1 : w (b + 1) % 256 < 256 := Nat.mod_lt _ (by norm_num)
  have h2 : w (b + 2) % 256 < 256 := Nat.mod_lt _ (by norm_num)
  have h3 : w (b + 3) % 256 < 256 := Nat.mod_lt _ (by norm_num)
  interval_cases lane <;>
    simp only [unpack_trits_avx512, loadWord, and_three_eq_mod,
      Nat.shiftRight_eq_div_pow] <;>
    norm_num <;> omega

/-- Lane `lane` of the chunk starting at element `16*c` unpacks exactly the
reference field of element `16*c + lane`. -/
lemma unpack_chunk_eq_refTrit (w : Nat → Nat) (c lane : Nat) (h : lane < 16) :
    unpack_trits_avx512 (loadWord w (16 * c / 4)) lane = refTrit w (16 * c + lane) := by
  have e1 : 16 * c / 4 = 4 * c := by omega
  rw [e1, unpack_loadWord w (4 * c) lane h]
  unfold refTrit
  have e2 : (16 * c + lane) / 4 = 4 * c + lane / 4 := by omega
  have e3 : (16 * c + lane) % 4 = lane % 4 := by omega
  rw [e2, e3]

lemma chunk_products_eq_ref (w : Nat → Nat) (a : Nat → Int) (c lane : Nat) (h : lane < 16) :
    chunk_products w a (16 * c) lane
      = ((refTrit w (16 * c + lane) : Int) - 1) * a (16 * c + lane) := by
  unfold chunk_products decode_trits_avx512
  rw [unpack_chunk_eq_refTrit w c lane h]

lemma horizontal_sum_add (v u : Nat → Int) :
    horizontal_sum_avx512 (fun lane => v lane + u lane)
      = horizontal_sum_avx512 v + ∑ lane ∈ Finset.range 16, u lane := by
  unfold horizontal_sum_avx512
  exact Finset.sum_add_distrib

/-- The accumulator after `k` full chunks horizontally sums to the reference
dot product over the first `16*k` elements. -/
lemma horizontal_dense_acc (w : Nat → Nat) (a : Nat → Int) (k : Nat) :
    horizontal_sum_avx512 (dense_acc w a k) = refDot w a (16 * k) := by
  induction k with
  | zero => simp [horizontal_sum_avx512, dense_acc, refDot]
  | succ k ih =>
    show horizontal_sum_avx512 (fun lane =>
        dense_acc w a k lane + chunk_products w a (16 * k) lane) = _
    rw [horizontal_sum_add, ih]
    have e1 : 16 * (k + 1) = 16 * k + 16 := by ring
    rw [e1]
    unfold refDot
    rw [Finset.sum_range_add]
    congr 1
    exact Finset.sum_congr rfl fun lane hl =>
      chunk_products_eq_ref w a k lane (Finset.mem_range.mp hl)

/-- The masked tail chunk sums to the reference dot product over its `r`
active lanes. -/
lemma tail_products_sum (w : Nat → Nat) (a : Nat → Int) (full r : Nat) (h : r ≤ 16) :
    ∑ lane ∈ Finset.range 16, tail_products w a (16 * full) r lane
      = ∑ j ∈ Finset.range r,
          ((refTrit w (16 * full + j) : Int) - 1) * a (16 * full + j) := by
  have e1 : ∀ lane ∈ Finset.range 16, tail_products w a (16 * full) r lane
      = if lane < r then ((refTrit w (16 * full + lane) : Int) - 1) * a (16 * full + lane)
        else 0 := by
    intro lane hl
    unfold tail_products decode_trits_avx512
    rw [unpack_chunk_eq_refTrit w full lane (Finset.mem_range.mp hl)]
  rw [Finset.sum_congr rfl e1, ← Finset.sum_filter]
  congr 1
  ext x
  simp only [Finset.mem_filter, Finset.mem_range]
  omega

/-- C1: for every `n` (in particular every `n` in
`{0, 1, 4, 15, 16, 17, 31, 32, 100}`) and every packed weight buffer and
activation array, `ggml_bitnet_stfma_dense_avx512_tail(weights, activations,
n)` returns exactly the reference sum `Σ_{i<n} (field_i - 1) *
activations[i]`, where `field_i` is the 2-bit field at byte `i/4`, sub-field
`i%4`, as computed by direct non-vectorized decoding. -/
theorem dense_avx512_tail_eq_refDot (w : Nat → Nat) (a : Nat → Int) (n : Nat) :
    ggml_bitnet_stfma_dense_avx512_tail w a n = refDot w a n := by
  unfold ggml_bitnet_stfma_dense_avx512_tail
  by_cases hr : n % 16 = 0
  · simp only [hr, if_pos]
    rw [horizontal_dense_acc]
    congr 1
    omega
  · simp only [hr, if_neg, ite_false]
    rw [horizontal_sum_add, horizontal_dense_acc,
      tail_products_sum w a (n / 16) (n % 16) (le_of_lt (Nat.mod_lt n (by norm_num)))]
    have hn : n = 16 * (n / 16) + n % 16 := by omega
    conv_rhs => rw [hn]
    unfold refDot
    rw [Finset.sum_range_add]

/-- C2 (code bug evidence): at `n = 17` the masked tail path of
`ggml_bitnet_stfma_dense_avx512_tail` performs the unmasked 4-byte load
`*(const uint32_t*)&weights[16 / 4]`, touching weight bytes 5, 6 and 7 even
though the byte containing element `n-1 = 16` is byte `(17 - 1) / 4 = 4` (and
the buffer produced by `cache_weights` holds only `⌈17/4⌉ = 5` bytes); the
activation reads, by contrast, are properly confined to indices below 17. -/
theorem dense_avx512_tail_weight_read_out_of_bounds :
    (17 - 1) / 4 = 4 ∧ 5 ∈ tail_weight_bytes_read 17 ∧ 6 ∈ tail_weight_bytes_read 17 ∧
      7 ∈ tail_weight_bytes_read 17 ∧
      (tail_act_indices_read 17).all (fun j => decide (j < 17)) = true := by decide

/-- C3: whenever `n` is a multiple of the 16-lane width,
`ggml_bitnet_stfma_dense_avx512` and `ggml_bitnet_stfma_dense_avx512_tail`
return the same result on every input. -/
theorem dense_avx512_eq_tail_on_multiples (w : Nat → Nat) (a : Nat → Int) (n : Nat)
    (h : n % 16 = 0) :
    ggml_bitnet_stfma_dense_avx512 w a n = ggml_bitnet_stfma_dense_avx512_tail w a n := by
  unfold ggml_bitnet_stfma_dense_avx512 ggml_bitnet_stfma_dense_avx512_tail
  simp only [h, if_pos]
  have e1 : (n + 15) / 16 = n / 16 := by omega
  rw [e1]

theorem dense_avx512_eq_tail_on_multiples_witness :
    (32 : Nat) % 16 = 0 ∧
      ggml_bitnet_stfma_dense_avx512 (fun i => i + 7) (fun i => (i : Int) - 3) 32
        = ggml_bitnet_stfma_dense_avx512_tail (fun i => i + 7) (fun i => (i : Int) - 3) 32 :=
  ⟨by decide, dense_avx512_eq_tail_on_multiples _ _ 32 (by decide)⟩

set_option maxRecDepth 4000 in
/-- C4: for every byte `b`, `convert_bitnet_to_stfma_byte b` — computed by
the source's bit-plane formula — equals the byte obtained by independently
transforming each of its four 2-bit fields `(hi, lo)` to `(hi', lo')` with
`lo' = hi` and `hi' = NOT (hi XOR lo)`. -/
theorem convert_bitnet_to_stfma_byte_fieldwise :
    ∀ b : Fin 256, convert_bitnet_to_stfma_byte b.val = encode_byte_fieldwise_spec b.val := by
  decide

set_option maxRecDepth 10000 in
/-- C10: per field the encoder acts as the bijection `0 → 2, 1 → 0, 2 → 1`
(and `3 → 3`); hence a byte whose four 2-bit fields all lie in `{0, 1, 2}` is
mapped to a byte whose fields all lie in `{0, 1, 2}`, and kernel decoding
(field minus 1) of an encoded valid field always yields a weight in
`{-1, 0, +1}`. -/
theorem convert_preserves_valid_trits :
    (∀ (b : Fin 256) (k : Fin 4),
        fieldAt (convert_bitnet_to_stfma_byte b.val) k.val
          = trit_perm_spec (fieldAt b.val k.val))
    ∧ (∀ (b : Fin 256) (k : Fin 4), fieldAt b.val k.val ≤ 2 →
        fieldAt (convert_bitnet_to_stfma_byte b.val) k.val ≤ 2 ∧
        ((fieldAt (convert_bitnet_to_stfma_byte b.val) k.val : Int) - 1 = -1 ∨
          (fieldAt (convert_bitnet_to_stfma_byte b.val) k.val : Int) - 1 = 0 ∨
          (fieldAt (convert_bitnet_to_stfma_byte b.val) k.val : Int) - 1 = 1)) := by
  decide

theorem convert_preserves_valid_trits_witness :
    fieldAt 0 0 ≤ 2 ∧
      (fieldAt (convert_bitnet_to_stfma_byte 0) 0 ≤ 2 ∧
        ((fieldAt (convert_bitnet_to_stfma_byte 0) 0 : Int) - 1 = -1 ∨
          (fieldAt (convert_bitnet_to_stfma_byte 0) 0 : Int) - 1 = 0 ∨
          (fieldAt (convert_bitnet_to_stfma_byte 0) 0 : Int) - 1 = 1)) :=
  ⟨by decide, convert_preserves_valid_trits.2 0 0 (by decide)⟩

/-! ## Cache lemmas -/

lemma removeFirstEntry_found (addr : Nat) (l : List CacheEntry) (e : CacheEntry)
    (rest : List CacheEntry) (h : removeFirstEntry addr l = (some e, rest)) :
    l.length = rest.length + 1 ∧
      (l.map (fun x => x.size_bytes)).sum
        = e.size_bytes + (rest.map (fun x => x.size_bytes)).sum := by
  induction l generalizing rest with
  | nil => simp [removeFirstEntry] at h
  | cons x xs ih =>
    by_cases hx : x.entryAddr = addr
    · simp only [removeFirstEntry, hx, if_pos] at h
      obtain ⟨he, hrest⟩ := Prod.mk.injEq _ _ _ _ ▸ h
      cases he
      subst hrest
      simp
    · simp only [removeFirstEntry, hx, if_neg, not_false_iff] at h
      rcases hr : removeFirstEntry addr xs with ⟨f, r⟩
      rw [hr] at h
      obtain ⟨hf, hrest⟩ := Prod.mk.injEq _ _ _ _ ▸ h
      subst hf
      subst hrest
      obtain ⟨h1, h2⟩ := ih r hr
      constructor
      · simp [h1]
      · simp only [List.map_cons, List.sum_cons, h2]
        omega

lemma removeFirstEntry_none (addr : Nat) (l : List CacheEntry)
    (rest : List CacheEntry) (h : removeFirstEntry addr l = (none, rest)) : rest = l := by
  induction l generalizing rest with
  | nil => simpa [removeFirstEntry] using (Prod.mk.injEq _ _ _ _ ▸ h).2.symm
  | cons x xs ih =>
    by_cases hx : x.entryAddr = addr
    · simp [removeFirstEntry, hx] at h
    · simp only [removeFirstEntry, hx, if_neg, not_false_iff] at h
      rcases hr : removeFirstEntry addr xs with ⟨f, r⟩
      rw [hr] at h
      obtain ⟨hf, hrest⟩ := Prod.mk.injEq _ _ _ _ ▸ h
      subst hf
      subst hrest
      rw [ih r hr]

lemma step_preserves_StatsOk (st : CacheState) (op : CacheOp) (h : StatsOk st) :
    StatsOk (CacheOp.step st op) := by
  obtain ⟨h1, h2⟩ := h
  cases op with
  | init => exact ⟨rfl, rfl⟩
  | cache raw n entryOk bufOk =>
    cases raw with
    | none => exact ⟨h1, h2⟩
    | some r =>
      by_cases hn : n = 0
      · simp only [CacheOp.step, ggml_bitnet_stfma_cache_weights, hn, if_pos]
        exact ⟨h1, h2⟩
      · cases entryOk with
        | false =>
          simp only [CacheOp.step, ggml_bitnet_stfma_cache_weights, hn, if_neg,
            not_false_iff, if_pos]
          exact ⟨h1, h2⟩
        | true =>
          cases bufOk with
          | false =>
            simp only [CacheOp.step, ggml_bitnet_stfma_cache_weights, hn, if_neg,
              not_false_iff]
            norm_num
            exact ⟨h1, h2⟩
          | true =>
            simp only [CacheOp.step, ggml_bitnet_stfma_cache_weights, hn, if_neg,
              not_false_iff]
            norm_num
            refine ⟨?_, ?_⟩
            · simp [h1]
            · simp only [List.map_cons, List.sum_cons, h2]
              omega
  | free k =>
    cases hk : st.head[k]? with
    | none =>
      simp only [CacheOp.step, hk, ggml_bitnet_stfma_free_cached_weights]
      exact ⟨h1, h2⟩
    | some e =>
      simp only [CacheOp.step, hk, ggml_bitnet_stfma_free_cached_weights]
      rcases hr : removeFirstEntry e.entryAddr st.head with ⟨f, rest⟩
      cases f with
      | none => exact ⟨h1, h2⟩
      | some g =>
        obtain ⟨hl, hs⟩ := removeFirstEntry_found e.entryAddr st.head g rest hr
        exact ⟨by simp only []; omega, by simp only []; omega⟩
  | shutdown => exact ⟨rfl, rfl⟩

/-- C5: a successful `cache_weights(raw, n)` (`n ≥ 1`) pushes an entry whose
buffer is exactly `⌈n/4⌉` bytes, obtained by converting exactly the source
bytes `raw[0] .. raw[⌈n/4⌉ - 1]`; and after every sequence of `init`,
`cache_weights`, `free_cached_weights` (on live handles) and `shutdown`
calls, `num_entries` equals the number of live entries and `total_bytes` the
sum of their `size_bytes`. -/
theorem cache_weights_size_and_stats_invariant :
    (∀ (st : CacheState) (raw : Nat → Nat) (n hd : Nat) (st' : CacheState),
        1 ≤ n →
        ggml_bitnet_stfma_cache_weights st (some raw) n true true = (some hd, st') →
        ∃ e : CacheEntry, st'.head = e :: st.head ∧ e.size_bytes = (n + 3) / 4 ∧
          e.stfma_weights.length = (n + 3) / 4 ∧
          e.stfma_weights = (List.range ((n + 3) / 4)).map
            (fun i => convert_bitnet_to_stfma_byte (raw i % 256)))
    ∧ ∀ ops : List CacheOp, StatsOk (runOps ops) := by
  constructor
  · intro st raw n hd st' hn heq
    have hn0 : ¬ n = 0 := by omega
    simp only [ggml_bitnet_stfma_cache_weights, hn0, if_neg, not_false_iff] at heq
    norm_num at heq
    obtain ⟨-, hst⟩ := heq
    refine ⟨⟨st.heap_next, st.heap_next + 1,
      (List.range ((n + 3) / 4)).map
        (fun i => convert_bitnet_to_stfma_byte (raw i % 256)), (n + 3) / 4⟩,
      ?_, rfl, by simp, rfl⟩
    rw [← hst]
  · intro ops
    have base : StatsOk initState := ⟨rfl, rfl⟩
    rw [runOps]
    generalize initState = st at base ⊢
    induction ops generalizing st with
    | nil => exact base
    | cons op rest ih => exact ih _ (step_preserves_StatsOk st op base)

theorem cache_weights_size_and_stats_invariant_witness :
    (1 : Nat) ≤ 5 ∧
      ∃ e : CacheEntry,
        (ggml_bitnet_stfma_cache_weights initState (some scenarioRaw) 5 true true).2.head
            = e :: initState.head ∧
          e.size_bytes = (5 + 3) / 4 ∧ e.stfma_weights.length = (5 + 3) / 4 ∧
          e.stfma_weights = (List.range ((5 + 3) / 4)).map
            (fun i => convert_bitnet_to_stfma_byte (scenarioRaw i % 256)) :=
  ⟨by decide,
    cache_weights_size_and_stats_invariant.1 initState scenarioRaw 5 0
      (ggml_bitnet_stfma_cache_weights initState (some scenarioRaw) 5 true true).2
      (by decide) (by decide)⟩

/-- C6: caching a tensor and then freeing the returned handle restores
`num_entries` and `total_bytes` to their pre-cache values, from every
registry state; concretely (Scenarios A and B) caching tensors of 16, 20 and
4 elements gives stats `(3, 10)` and then freeing the middle entry gives
stats `(2, 5)`. -/
theorem cache_then_free_restores_stats :
    (∀ (st : CacheState) (raw : Nat → Nat) (n hd : Nat) (st' : CacheState),
        ggml_bitnet_stfma_cache_weights st (some raw) n true true = (some hd, st') →
        (ggml_bitnet_stfma_free_cached_weights st' (some hd)).num_entries
            = st.num_entries ∧
          (ggml_bitnet_stfma_free_cached_weights st' (some hd)).total_bytes
            = st.total_bytes)
    ∧ ggml_bitnet_stfma_cache_stats scenarioState3 = (3, 10)
    ∧ ggml_bitnet_stfma_cache_stats scenarioStateB = (2, 5) := by
  refine ⟨?_, by decide, by decide⟩
  intro st raw n hd st' heq
  by_cases hn : n = 0
  · simp [ggml_bitnet_stfma_cache_weights, hn] at heq
  · simp only [ggml_bitnet_stfma_cache_weights, hn, if_neg, not_false_iff] at heq
    norm_num at heq
    obtain ⟨hhd, hst⟩ := heq
    subst hhd
    rw [← hst]
    simp only [ggml_bitnet_stfma_free_cached_weights, removeFirstEntry, if_pos]
    constructor
    · omega
    · omega

theorem cache_then_free_restores_stats_witness :
    (ggml_bitnet_stfma_free_cached_weights
        (ggml_bitnet_stfma_cache_weights initState (some scenarioRaw) 16 true true).2
        (some 0)).num_entries = initState.num_entries ∧
      (ggml_bitnet_stfma_free_cached_weights
        (ggml_bitnet_stfma_cache_weights initState (some scenarioRaw) 16 true true).2
        (some 0)).total_bytes = initState.total_bytes :=
  cache_then_free_restores_stats.1 initState scenarioRaw 16 0
    (ggml_bitnet_stfma_cache_weights initState (some scenarioRaw) 16 true true).2
    (by decide)

/-- C7: `cache_weights` returns NULL for an absent raw pointer or `n = 0`
leaving the whole state (aggregates included) unchanged;
`get_cached_weights(NULL)` returns NULL; `free_cached_weights(NULL)` is a
no-op. -/
theorem cache_null_zero_handling :
    (∀ (st : CacheState) (n : Nat) (entryOk bufOk : Bool),
        ggml_bitnet_stfma_cache_weights st none n entryOk bufOk = (none, st))
    ∧ (∀ (st : CacheState) (raw : Nat → Nat) (entryOk bufOk : Bool),
        ggml_bitnet_stfma_cache_weights st (some raw) 0 entryOk bufOk = (none, st))
    ∧ (∀ st : CacheState, ggml_bitnet_stfma_get_cached_weights st none = none)
    ∧ ∀ st : CacheState, ggml_bitnet_stfma_free_cached_weights st none = st :=
  ⟨fun _ _ _ _ => rfl, fun _ _ _ _ => rfl, fun _ => rfl, fun _ => rfl⟩

/-- C8: if either allocation inside `cache_weights` fails, the call returns
NULL with no partial state: the entry struct, when it was allocated, is
released again (the live-allocation list is unchanged), no entry is inserted,
and `num_entries` and `total_bytes` are unchanged. -/
theorem cache_weights_alloc_failure_rollback
    (st : CacheState) (raw : Nat → Nat) (n : Nat) (entryOk bufOk : Bool)
    (hfail : entryOk = false ∨ bufOk = false) :
    (ggml_bitnet_stfma_cache_weights st (some raw) n entryOk bufOk).1 = none ∧
      (ggml_bitnet_stfma_cache_weights st (some raw) n entryOk bufOk).2.head = st.head ∧
      (ggml_bitnet_stfma_cache_weights st (some raw) n entryOk bufOk).2.num_entries
        = st.num_entries ∧
      (ggml_bitnet_stfma_cache_weights st (some raw) n entryOk bufOk).2.total_bytes
        = st.total_bytes ∧
      (ggml_bitnet_stfma_cache_weights st (some raw) n entryOk bufOk).2.heap_live
        = st.heap_live := by
  by_cases hn : n = 0
  · simp [ggml_bitnet_stfma_cache_weights, hn]
  · rcases hfail with he | hb
    · subst he
      simp [ggml_bitnet_stfma_cache_weights, hn]
    · subst hb
      cases entryOk with
      | false => simp [ggml_bitnet_stfma_cache_weights, hn]
      | true =>
        simp only [ggml_bitnet_stfma_cache_weights, hn, if_neg, not_false_iff]
        norm_num

theorem cache_weights_alloc_failure_rollback_witness :
    ((false = false ∨ true = false) : Prop) ∧
      ((ggml_bitnet_stfma_cache_weights initState (some (fun _ => 1)) 8 false true).1
          = none ∧
        (ggml_bitnet_stfma_cache_weights initState (some (fun _ => 1)) 8 false true).2.head
          = initState.head ∧
        (ggml_bitnet_stfma_cache_weights initState
            (some (fun _ => 1)) 8 false true).2.num_entries = initState.num_entries ∧
        (ggml_bitnet_stfma_cache_weights initState
            (some (fun _ => 1)) 8 false true).2.total_bytes = initState.total_bytes ∧
        (ggml_bitnet_stfma_cache_weights initState
            (some (fun _ => 1)) 8 false true).2.heap_live = initState.heap_live) :=
  ⟨Or.inl rfl,
    cache_weights_alloc_failure_rollback initState (fun _ => 1) 8 false true (Or.inl rfl)⟩

/-- C9: calling the hybrid entry point with `use_cache = true` and a handle
for which `get_cached_weights` yields null writes `0.0` to the output scalar
and leaves every other piece of state untouched — a defined silent degraded
result, not a hard failure. -/
theorem hybrid_null_handle_writes_zero
    (st : CacheState) (n : Nat) (vxHandle : Option Nat) (vxRaw : Nat → Nat)
    (vy : Nat → Int)
    (h : ggml_bitnet_stfma_get_cached_weights st vxHandle = none) :
    ggml_vec_dot_i2_i8_s_stfma_hybrid st n vxHandle vxRaw vy true = (0, st) := by
  simp [ggml_vec_dot_i2_i8_s_stfma_hybrid, ggml_vec_dot_i2_i8_s_stfma_cached, h]

theorem hybrid_null_handle_writes_zero_witness :
    ggml_bitnet_stfma_get_cached_weights initState (some 5) = none ∧
      ggml_vec_dot_i2_i8_s_stfma_hybrid initState 3 (some 5) (fun _ => 1) (fun _ => 1) true
        = (0, initState) :=
  ⟨by decide,
    hybrid_null_handle_writes_zero initState 3 (some 5) (fun _ => 1) (fun _ => 1)
      (by decide)⟩
